/-
Verification of the flake identifier library (flake.go).

The development shallowly embeds the Go source:
  * machine integers (uint8/uint32/uint64) are `Nat` with explicit `% 2 ^ w`
    (or `&&& mask`) at every point where the Go code can truncate or wrap;
  * the wall clock read `time.Now().UTC().UnixNano()` becomes an explicit
    `nano : Nat` parameter of `tick` (the uint64 conversion is `% 2 ^ 64`);
  * the one random byte read by `New` becomes an `Option Nat` parameter
    (`none` models a failing read of the secure random source, which the Go
    code turns into a panic);
  * the mutable `flake` struct becomes the explicit state `FlakeState`,
    threaded through `tick` / `Next` / `NextHex` / `NextB64`;
  * the Go runtime panic raised by `Validate` when it slices `id[:8]` on an
    input shorter than 8 bytes is the explicit result `ValidateResult.crash`.
-/
import Mathlib

namespace Flake

/-- Source constant `v0 = iota << 60` (iota = 0). -/
def v0 : Nat := 0 <<< 60

/-- Source constant `v1` (iota = 1), the version-1 tag in the top nibble. -/
def v1 : Nat := 1 <<< 60

/-- Source constant `tsMask = 0x0fffffffffffff00`.  Declared in the source but
never applied anywhere in `tick` (only mentioned in commented-out code). -/
def tsMask : Nat := 0x0fffffffffffff00

/-- Source constant `vMask = 0xf000000000000000` (unused in live code). -/
def vMask : Nat := 0xf000000000000000

/-! ### CRC-8

The source computes `crc8.Checksum(data, crcT)` with
`crcT = crc8.MakeTable(crc8.CRC8)` from the sigurn/crc8 dependency: the plain
CRC-8 parameter set (polynomial 0x07, initial value 0, no input or output
reflection, zero xor-out).  `MakeTable` stores, at index `n`, eight MSB-first
polynomial-division steps applied to `n`; `Update` folds `crc = table[crc ^ d]`
over the data starting from the zero initial value, and `Complete` is the
identity for this parameter set.  The table lookup is inlined here as the
eight explicit steps. -/

/-- One MSB-first polynomial-division step of CRC-8 with polynomial 0x07,
on an 8-bit value. -/
def crc8Step (c : Nat) : Nat :=
  if c &&& 0x80 ≠ 0 then ((c <<< 1) ^^^ 0x07) &&& 0xff else (c <<< 1) &&& 0xff

/-- `n` iterated CRC-8 steps. -/
def crc8Rounds : Nat → Nat → Nat
  | 0, c => c
  | n + 1, c => crc8Rounds n (crc8Step c)

/-- One byte of the table-driven update: `crc = table[crc ^ d]`, where the
table entry is eight division steps applied to the 8-bit index. -/
def crc8Update (c d : Nat) : Nat :=
  crc8Rounds 8 ((c ^^^ d) &&& 0xff)

/-- `crc8.Checksum(data, crcT)`: fold the byte update over `data` from the
zero initial value. -/
def crc8 (data : List Nat) : Nat :=
  data.foldl crc8Update 0

/-! ### Byte order helpers (encoding/binary, big endian) -/

/-- `binary.BigEndian.PutUint64`: the eight bytes of `w`, most significant
first; each `byte(...)` conversion truncates mod 256. -/
def beBytes8 (w : Nat) : List Nat :=
  [(w >>> 56) % 256, (w >>> 48) % 256, (w >>> 40) % 256, (w >>> 32) % 256,
   (w >>> 24) % 256, (w >>> 16) % 256, (w >>> 8) % 256, w % 256]

/-- `binary.BigEndian.Uint64(b[:8])`: assemble the first eight entries of `b`
exactly as the Go source does, with `|` and shifts, least significant term
first. -/
def beUint64 (b : List Nat) : Nat :=
  b.getD 7 0 ||| b.getD 6 0 <<< 8 ||| b.getD 5 0 <<< 16 ||| b.getD 4 0 <<< 24 |||
  b.getD 3 0 <<< 32 ||| b.getD 2 0 <<< 40 ||| b.getD 1 0 <<< 48 ||| b.getD 0 0 <<< 56

/-! ### Generator state and operations -/

/-- The mutable fields of the Go `flake` struct (the `sync.Mutex` serialises
calls and carries no data; the scratch `enc` buffer of `NextHex`/`NextB64` is
fully overwritten before use and is modelled functionally). -/
structure FlakeState where
  buf : List Nat
  counter : Nat
  lts : Nat
deriving Repr, DecidableEq

/-- The successfully constructed generator of `New(wid)` with random seed
byte `b`: `buf[8..10]` hold the worker id (`wid` is a Go `uint32`, each
stored byte is a `uint8` truncation), `counter` starts at the seed byte, and
`lts` starts at the zero value of the Go struct field. -/
def mkFlake (wid b : Nat) : FlakeState :=
  { buf := [0, 0, 0, 0, 0, 0, 0, 0,
            ((wid % 2 ^ 32) >>> 16) % 256, ((wid % 2 ^ 32) >>> 8) % 256,
            (wid % 2 ^ 32) % 256, 0],
    counter := b % 256,
    lts := 0 }

/-- `New(wid)`: reads one byte from `crypto/rand`; a failing read
(`randByte = none`) panics, i.e. construction fails fatally; otherwise the
counter is seeded with the byte that was read. -/
def New (wid : Nat) (randByte : Option Nat) : Option FlakeState :=
  match randByte with
  | none => none
  | some b => some (mkFlake wid b)

/-- `(*flake).tick()`, with the current wall clock (`UnixNano`, as a uint64)
passed explicitly.  Mirrors the source line by line:
`ts := nano / 1000; ts = ts << 8; ts = v1 | ts | f.counter`; the counter is
incremented mod 256 iff `ts <= f.lts`; the *candidate* `ts` (old counter
byte) is stored as the new `lts`; the emitted word is `v1 | ts | f.counter`
with the possibly-updated counter OR-ed on top; bytes 0-7 get the word
big-endian, bytes 8-10 are kept, and byte 11 gets the CRC-8 of bytes 0-10. -/
def tick (nano : Nat) (f : FlakeState) : FlakeState :=
  let ts0 := (nano % 2 ^ 64) / 1000
  let ts1 := (ts0 <<< 8) % 2 ^ 64
  let ts := v1 ||| ts1 ||| f.counter
  let counter := if ts ≤ f.lts then (f.counter + 1) &&& 0xff else f.counter
  let word := v1 ||| ts ||| counter
  let pre := beBytes8 word ++ [f.buf.getD 8 0, f.buf.getD 9 0, f.buf.getD 10 0]
  { buf := pre ++ [crc8 pre], counter := counter, lts := ts }

/-- `Next()`: advance the state and return a copy of the 12-byte buffer. -/
def Next (nano : Nat) (f : FlakeState) : List Nat × FlakeState :=
  let f2 := tick nano f
  (f2.buf, f2)

/-- Emitted identifiers of a sequence of `Next` calls, one per clock
reading. -/
def nextN : FlakeState → List Nat → List (List Nat)
  | _, [] => []
  | f, n :: rest =>
    let p := Next n f
    p.1 :: nextN p.2 rest

/-- Generator state after a sequence of ticks. -/
def runTicks (f : FlakeState) (ns : List Nat) : FlakeState :=
  ns.foldl (fun s n => tick n s) f

/-! ### Encoding views (encoding/hex, encoding/base64 URL alphabet) -/

/-- `encoding/hex` digit table `"0123456789abcdef"`. -/
def hexDigit (n : Nat) : Char :=
  if n < 10 then Char.ofNat (48 + n) else Char.ofNat (87 + n)

/-- `hex.Encode`: two lowercase digits per byte, high nibble first. -/
def hexEncode : List Nat → List Char
  | [] => []
  | b :: rest => hexDigit (b >>> 4) :: hexDigit (b &&& 0xf) :: hexEncode rest

/-- `encoding/hex` `fromHexChar`: value of one hex digit, `none` on any
other character. -/
def fromHexChar (c : Char) : Option Nat :=
  if 48 ≤ c.toNat ∧ c.toNat ≤ 57 then some (c.toNat - 48)
  else if 97 ≤ c.toNat ∧ c.toNat ≤ 102 then some (c.toNat - 87)
  else if 65 ≤ c.toNat ∧ c.toNat ≤ 70 then some (c.toNat - 55)
  else none

/-- `hex.Decode`: pairs of digits to bytes (`hi<<4 | lo`); fails on a stray
trailing digit or a non-hex character. -/
def hexDecode : List Char → Option (List Nat)
  | [] => some []
  | [_] => none
  | c1 :: c2 :: rest => do
    let hi ← fromHexChar c1
    let lo ← fromHexChar c2
    let bs ← hexDecode rest
    pure ((hi <<< 4 ||| lo) :: bs)

/-- The URL-safe base64 alphabet `A-Z a-z 0-9 - _` (`base64.URLEncoding`). -/
def b64Char (i : Nat) : Char :=
  if i < 26 then Char.ofNat (65 + i)
  else if i < 52 then Char.ofNat (71 + i)
  else if i < 62 then Char.ofNat (i - 4)
  else if i = 62 then Char.ofNat 45
  else Char.ofNat 95

/-- Index of a character in the URL-safe base64 alphabet. -/
def b64Index (c : Char) : Option Nat :=
  if 65 ≤ c.toNat ∧ c.toNat ≤ 90 then some (c.toNat - 65)
  else if 97 ≤ c.toNat ∧ c.toNat ≤ 122 then some (c.toNat - 71)
  else if 48 ≤ c.toNat ∧ c.toNat ≤ 57 then some (c.toNat + 4)
  else if c.toNat = 45 then some 62
  else if c.toNat = 95 then some 63
  else none

/-- `base64.URLEncoding.Encode` for inputs whose length is a multiple of 3
(the only case the source exercises: 12-byte buffers, so no padding is ever
emitted): each 3-byte group becomes four alphabet characters. -/
def b64Encode : List Nat → List Char
  | b0 :: b1 :: b2 :: rest =>
    let w := b0 <<< 16 ||| b1 <<< 8 ||| b2
    b64Char ((w >>> 18) &&& 0x3f) :: b64Char ((w >>> 12) &&& 0x3f) ::
    b64Char ((w >>> 6) &&& 0x3f) :: b64Char (w &&& 0x3f) :: b64Encode rest
  | _ => []

/-- `base64.URLEncoding.Decode` for full four-character groups (padding never
occurs for the 16-character strings produced here). -/
def b64Decode : List Char → Option (List Nat)
  | [] => some []
  | c0 :: c1 :: c2 :: c3 :: rest => do
    let i0 ← b64Index c0
    let i1 ← b64Index c1
    let i2 ← b64Index c2
    let i3 ← b64Index c3
    let w := i0 <<< 18 ||| i1 <<< 12 ||| i2 <<< 6 ||| i3
    let bs ← b64Decode rest
    pure (((w >>> 16) &&& 0xff) :: ((w >>> 8) &&& 0xff) :: (w &&& 0xff) :: bs)
  | _ => none

/-- `NextHex()`: advance the state and hex-encode the buffer. -/
def NextHex (nano : Nat) (f : FlakeState) : List Char × FlakeState :=
  let f2 := tick nano f
  (hexEncode f2.buf, f2)

/-- `NextB64()`: advance the state and base64-encode the buffer. -/
def NextB64 (nano : Nat) (f : FlakeState) : List Char × FlakeState :=
  let f2 := tick nano f
  (b64Encode f2.buf, f2)

/-! ### Validator -/

/-- Outcome of `Validate`.  `crash` models the Go runtime panic raised by the
slice expression `id[:8]` when the input is shorter than 8 bytes — control
never reaches any of the three checks in that case.  The error constructors
carry exactly the values interpolated into the corresponding
`fmt.Errorf` messages. -/
inductive ValidateResult where
  | crash : ValidateResult
  | versionErr (v : Nat) : ValidateResult
  | lengthErr (l : Nat) : ValidateResult
  | crcErr (computed stored : Nat) : ValidateResult
  | ok : ValidateResult
deriving Repr, DecidableEq

/-- `Validate(id)`, exactly in source order: first the (crashing) read of the
first eight bytes, then the version check, then the length check, then the
checksum check. -/
def Validate (id : List Nat) : ValidateResult :=
  if id.length < 8 then ValidateResult.crash
  else
    let ts := beUint64 id
    if ts >>> 60 ≠ 1 then ValidateResult.versionErr (ts >>> 60)
    else if id.length ≠ 12 then ValidateResult.lengthErr id.length
    else if crc8 (id.take 11) ≠ id.getD 11 0 then
      ValidateResult.crcErr (crc8 (id.take 11)) (id.getD 11 0)
    else ValidateResult.ok

/-- Invariant of every reachable generator state: all buffer entries and the
counter are bytes. -/
def Inv (f : FlakeState) : Prop :=
  (∀ x ∈ f.buf, x < 256) ∧ f.counter < 256

/-! ### Arithmetic helper lemmas -/

theorem lor_eq_add_of_lt {a b : Nat} (i : Nat) (ha : 2 ^ i ∣ a) (hb : b < 2 ^ i) :
    a ||| b = a + b := by
  obtain ⟨c, rfl⟩ := ha
  exact (Nat.mul_add_lt_is_or hb c).symm

theorem shiftLeft_dvd (d i : Nat) : 2 ^ i ∣ d <<< i :=
  ⟨d, by rw [Nat.shiftLeft_eq, Nat.mul_comm]⟩

theorem lor_low_add {X : Nat} (d i : Nat) (hX : X < 2 ^ i) : X ||| d <<< i = d <<< i + X := by
  rw [Nat.lor_comm]
  exact lor_eq_add_of_lt i (shiftLeft_dvd d i) hX

theorem left_le_lor (a b : Nat) : a ≤ a ||| b :=
  Nat.le_of_testBit fun i h => by simp [h]

theorem and_255_eq_mod (x : Nat) : x &&& 0xff = x % 256 := by
  have h := Nat.and_pow_two_sub_one_eq_mod x 8
  norm_num at h
  exact h

theorem and_63_eq_mod (x : Nat) : x &&& 0x3f = x % 64 := by
  have h := Nat.and_pow_two_sub_one_eq_mod x 6
  norm_num at h
  exact h

theorem and_15_eq_mod (x : Nat) : x &&& 0xf = x % 16 := by
  have h := Nat.and_pow_two_sub_one_eq_mod x 4
  norm_num at h
  exact h

theorem getD_lt_256 {l : List Nat} (h : ∀ x ∈ l, x < 256) (i : Nat) : l.getD i 0 < 256 := by
  rw [List.getD_eq_getElem?_getD]
  cases hg : l[i]? with
  | none => simp
  | some v => simpa using h v (List.getElem?_mem hg)

/-- The big-endian word of a byte list, as a weighted sum of its first eight
entries. -/
theorem beUint64_eq_sum (l : List Nat) (h : ∀ x ∈ l, x < 256) :
    beUint64 l = l.getD 0 0 * 2 ^ 56 + l.getD 1 0 * 2 ^ 48 + l.getD 2 0 * 2 ^ 40 +
      l.getD 3 0 * 2 ^ 32 + l.getD 4 0 * 2 ^ 24 + l.getD 5 0 * 2 ^ 16 +
      l.getD 6 0 * 2 ^ 8 + l.getD 7 0 := by
  have h0 := getD_lt_256 h 0
  have h1 := getD_lt_256 h 1
  have h2 := getD_lt_256 h 2
  have h3 := getD_lt_256 h 3
  have h4 := getD_lt_256 h 4
  have h5 := getD_lt_256 h 5
  have h6 := getD_lt_256 h 6
  have h7 := getD_lt_256 h 7
  unfold beUint64
  rw [lor_low_add _ 8 (by omega), lor_low_add _ 16 (by omega),
    lor_low_add _ 24 (by omega), lor_low_add _ 32 (by omega),
    lor_low_add _ 40 (by omega), lor_low_add _ 48 (by omega),
    lor_low_add _ 56 (by omega)]
  omega

/-- The version nibble read by `Validate` is the top nibble of the first
byte. -/
theorem beUint64_shiftRight_60 (l : List Nat) (h : ∀ x ∈ l, x < 256) :
    beUint64 l >>> 60 = l.getD 0 0 >>> 4 := by
  have h1 := getD_lt_256 h 1
  have h2 := getD_lt_256 h 2
  have h3 := getD_lt_256 h 3
  have h4 := getD_lt_256 h 4
  have h5 := getD_lt_256 h 5
  have h6 := getD_lt_256 h 6
  have h7 := getD_lt_256 h 7
  rw [beUint64_eq_sum l h]
  omega

/-! ### CRC-8 and state bounds -/

theorem crc8Step_lt (c : Nat) : crc8Step c < 256 := by
  unfold crc8Step
  split
  · rw [and_255_eq_mod]; omega
  · rw [and_255_eq_mod]; omega

theorem crc8Rounds_lt (n c : Nat) (h : 0 < n) : crc8Rounds n c < 256 := by
  induction n generalizing c with
  | zero => omega
  | succ m ih =>
    cases Nat.eq_zero_or_pos m with
    | inl hm =>
      subst hm
      show crc8Step c < 256
      exact crc8Step_lt c
    | inr hm =>
      show crc8Rounds m (crc8Step c) < 256
      exact ih (crc8Step c) hm

theorem crc8Update_lt (c d : Nat) : crc8Update c d < 256 :=
  crc8Rounds_lt 8 _ (by omega)

theorem foldl_crc8Update_lt (l : List Nat) (c : Nat) (hc : c < 256) :
    l.foldl crc8Update c < 256 := by
  induction l generalizing c with
  | nil => simpa using hc
  | cons d rest ih => exact ih (crc8Update c d) (crc8Update_lt c d)

theorem crc8_lt (data : List Nat) : crc8 data < 256 :=
  foldl_crc8Update_lt data 0 (by omega)

theorem mkBuf_forall_lt (w g8 g9 g10 : Nat) (h8 : g8 < 256) (h9 : g9 < 256) (h10 : g10 < 256) :
    ∀ x ∈ (beBytes8 w ++ [g8, g9, g10]) ++ [crc8 (beBytes8 w ++ [g8, g9, g10])], x < 256 := by
  intro x hx
  simp only [beBytes8, List.cons_append, List.nil_append, List.mem_cons,
    List.not_mem_nil, or_false] at hx
  rcases hx with rfl | rfl | rfl | rfl | rfl | rfl | rfl | rfl | rfl | rfl | rfl | rfl
  any_goals omega
  exact crc8_lt _

theorem tick_counter_lt (nano : Nat) {f : FlakeState} (hc : f.counter < 256) :
    (tick nano f).counter < 256 := by
  unfold tick
  dsimp only
  split
  · rw [and_255_eq_mod]; omega
  · exact hc

theorem inv_mkFlake (wid b : Nat) : Inv (mkFlake wid b) := by
  constructor
  · intro x hx
    simp only [mkFlake, List.mem_cons, List.not_mem_nil, or_false] at hx
    rcases hx with rfl | rfl | rfl | rfl | rfl | rfl | rfl | rfl | rfl | rfl | rfl | rfl <;> omega
  · show b % 256 < 256
    omega

theorem inv_tick (nano : Nat) {f : FlakeState} (hf : Inv f) : Inv (tick nano f) := by
  obtain ⟨hb, hc⟩ := hf
  exact ⟨mkBuf_forall_lt _ _ _ _ (getD_lt_256 hb 8) (getD_lt_256 hb 9) (getD_lt_256 hb 10),
    tick_counter_lt nano hc⟩

theorem inv_runTicks (ns : List Nat) {f : FlakeState} (hf : Inv f) : Inv (runTicks f ns) := by
  induction ns generalizing f with
  | nil => simpa [runTicks] using hf
  | cons n rest ih => exact ih (inv_tick n hf)

theorem tick_buf_length (nano : Nat) (f : FlakeState) : (tick nano f).buf.length = 12 := by
  simp [tick, beBytes8]

theorem tick_frame (nano : Nat) (f : FlakeState) :
    (tick nano f).buf.getD 8 0 = f.buf.getD 8 0 ∧
    (tick nano f).buf.getD 9 0 = f.buf.getD 9 0 ∧
    (tick nano f).buf.getD 10 0 = f.buf.getD 10 0 := by
  simp [tick, beBytes8]

/-! ### A freshly written buffer validates -/

/-- Any buffer of the shape `tick` produces — a sub-2^64 word whose top
nibble is 1, three worker bytes, and the matching checksum — passes all
three checks of `Validate`. -/
theorem validate_mkBuf (w g8 g9 g10 : Nat) (_hw64 : w < 2 ^ 64) (h60 : w >>> 60 = 1)
    (h8 : g8 < 256) (h9 : g9 < 256) (h10 : g10 < 256) :
    Validate ((beBytes8 w ++ [g8, g9, g10]) ++ [crc8 (beBytes8 w ++ [g8, g9, g10])]) =
      ValidateResult.ok := by
  have hall := mkBuf_forall_lt w g8 g9 g10 h8 h9 h10
  have hbe : beUint64 ((beBytes8 w ++ [g8, g9, g10]) ++
      [crc8 (beBytes8 w ++ [g8, g9, g10])]) = w := by
    rw [beUint64_eq_sum _ hall]
    simp only [beBytes8, List.cons_append, List.nil_append, List.getD_cons_zero,
      List.getD_cons_succ]
    -- the bound on w closes the digit reconstruction
    omega
  simp only [Validate, hbe, h60]
  norm_num [beBytes8]

/-- The emitted time-word `v1 | (v1 | t | c1) | c2` has top nibble 1 whenever
the shifted timestamp stays below bit 61 and the counters are bytes. -/
theorem word_nibble {t c1 c2 : Nat} (ht : t < 2 ^ 61) (hc1 : c1 < 256) (hc2 : c2 < 256) :
    v1 ||| (v1 ||| t ||| c1) ||| c2 < 2 ^ 64 ∧ (v1 ||| (v1 ||| t ||| c1) ||| c2) >>> 60 = 1 := by
  have hv1 : v1 = 2 ^ 60 := by unfold v1; omega
  have hlt : v1 ||| (v1 ||| t ||| c1) ||| c2 < 2 ^ 61 := by
    refine Nat.or_lt_two_pow (Nat.or_lt_two_pow (by omega)
      (Nat.or_lt_two_pow (Nat.or_lt_two_pow (by omega) ht) (by omega))) (by omega)
  have hge : 2 ^ 60 ≤ v1 ||| (v1 ||| t ||| c1) ||| c2 :=
    le_trans (le_trans (le_of_eq hv1.symm) (left_le_lor v1 (v1 ||| t ||| c1)))
      (left_le_lor (v1 ||| (v1 ||| t ||| c1)) c2)
  exact ⟨by omega, by omega⟩

/-- On every reachable state, one `tick` at a clock below 2^53 microseconds
produces a buffer that `Validate` accepts. -/
theorem validate_tick_ok (nano : Nat) {f : FlakeState} (hf : Inv f)
    (hts : (nano % 2 ^ 64) / 1000 < 2 ^ 53) :
    Validate (tick nano f).buf = ValidateResult.ok := by
  obtain ⟨hb, hc⟩ := hf
  have hts1 : (((nano % 2 ^ 64) / 1000) <<< 8) % 2 ^ 64 < 2 ^ 61 := by omega
  have hcnt : (if v1 ||| (((nano % 2 ^ 64) / 1000) <<< 8) % 2 ^ 64 ||| f.counter ≤ f.lts
      then (f.counter + 1) &&& 0xff else f.counter) < 256 := by
    split
    · rw [and_255_eq_mod]; omega
    · exact hc
  have W := word_nibble hts1 hc hcnt
  exact validate_mkBuf _ _ _ _ W.1 W.2 (getD_lt_256 hb 8) (getD_lt_256 hb 9) (getD_lt_256 hb 10)

/-! ### Validate on arbitrary inputs -/

/-- Case analysis of `Validate` on inputs long enough not to crash: each
failing check yields its own error constructor carrying the observed values,
the first failing check (in source order: version, then length, then
checksum) decides the result, and passing all checks yields `ok`. -/
theorem validate_cases (id : List Nat) (h8 : 8 ≤ id.length) (hb : ∀ x ∈ id, x < 256) :
    (id.getD 0 0 >>> 4 ≠ 1 → Validate id = ValidateResult.versionErr (id.getD 0 0 >>> 4)) ∧
    (id.getD 0 0 >>> 4 = 1 → id.length ≠ 12 → Validate id = ValidateResult.lengthErr id.length) ∧
    (id.getD 0 0 >>> 4 = 1 → id.length = 12 → crc8 (id.take 11) ≠ id.getD 11 0 →
      Validate id = ValidateResult.crcErr (crc8 (id.take 11)) (id.getD 11 0)) ∧
    (id.getD 0 0 >>> 4 = 1 → id.length = 12 → crc8 (id.take 11) = id.getD 11 0 →
      Validate id = ValidateResult.ok) := by
  have hv := beUint64_shiftRight_60 id hb
  refine ⟨?_, ?_, ?_, ?_⟩
  · intro hne
    simp only [Validate, hv]
    rw [if_neg (show ¬ id.length < 8 by omega), if_pos hne]
  · intro heq hlen
    simp only [Validate, hv]
    rw [if_neg (show ¬ id.length < 8 by omega),
      if_neg (show ¬ id.getD 0 0 >>> 4 ≠ 1 from fun hh => hh heq), if_pos hlen]
  · intro heq hlen hcrc
    simp only [Validate, hv]
    rw [if_neg (show ¬ id.length < 8 by omega),
      if_neg (show ¬ id.getD 0 0 >>> 4 ≠ 1 from fun hh => hh heq),
      if_neg (show ¬ id.length ≠ 12 from fun hh => hh hlen), if_pos hcrc]
  · intro heq hlen hcrc
    simp only [Validate, hv]
    rw [if_neg (show ¬ id.length < 8 by omega),
      if_neg (show ¬ id.getD 0 0 >>> 4 ≠ 1 from fun hh => hh heq),
      if_neg (show ¬ id.length ≠ 12 from fun hh => hh hlen),
      if_neg (show ¬ crc8 (id.take 11) ≠ id.getD 11 0 from fun hh => hh hcrc)]

/-! ### Encoding round trips -/

set_option maxRecDepth 40000 in
theorem hex_digit_roundtrip : ∀ b, b < 256 →
    fromHexChar (hexDigit (b >>> 4)) = some (b >>> 4) ∧
    fromHexChar (hexDigit (b &&& 0xf)) = some (b &&& 0xf) ∧
    (b >>> 4) <<< 4 ||| (b &&& 0xf) = b := by decide

theorem hexDecode_hexEncode (l : List Nat) (h : ∀ x ∈ l, x < 256) :
    hexDecode (hexEncode l) = some l := by
  induction l with
  | nil => rfl
  | cons b rest ih =>
    have hb : b < 256 := h b (List.mem_cons_self b rest)
    have hr := ih fun x hx => h x (List.mem_cons_of_mem b hx)
    obtain ⟨h1, h2, h3⟩ := hex_digit_roundtrip b hb
    simp [hexEncode, hexDecode, h1, h2, hr, h3]

theorem hexEncode_length (l : List Nat) : (hexEncode l).length = 2 * l.length := by
  induction l with
  | nil => rfl
  | cons b rest ih => simp [hexEncode, ih]; omega

set_option maxRecDepth 40000 in
theorem b64_char_roundtrip : ∀ i, i < 64 → b64Index (b64Char i) = some i := by decide

theorem b64Decode_b64Encode : ∀ l : List Nat, (∀ x ∈ l, x < 256) → l.length % 3 = 0 →
    b64Decode (b64Encode l) = some l
  | [], _, _ => rfl
  | [_], _, hlen => by simp at hlen
  | [_, _], _, hlen => by simp at hlen
  | b0 :: b1 :: b2 :: rest, h, hlen => by
    have h0 : b0 < 256 := h b0 (by simp)
    have h1 : b1 < 256 := h b1 (by simp)
    have h2 : b2 < 256 := h b2 (by simp)
    have ih := b64Decode_b64Encode rest (fun x hx => h x (by simp [hx]))
      (by simp at hlen; omega)
    have hw : b0 <<< 16 ||| b1 <<< 8 ||| b2 = b0 * 2 ^ 16 + b1 * 2 ^ 8 + b2 := by
      have e1 : b0 <<< 16 ||| b1 <<< 8 = b0 <<< 16 + b1 <<< 8 :=
        lor_eq_add_of_lt 16 (shiftLeft_dvd b0 16) (by omega)
      rw [e1, lor_eq_add_of_lt 8 (by omega) (by omega)]
      omega
    simp only [b64Encode, hw, and_63_eq_mod]
    generalize hW : b0 * 2 ^ 16 + b1 * 2 ^ 8 + b2 = W
    have hb0 : W >>> 16 % 256 = b0 := by omega
    have hb1 : W >>> 8 % 256 = b1 := by omega
    have hb2 : W % 256 = b2 := by omega
    have r0 := b64_char_roundtrip (W >>> 18 % 64) (by omega)
    have r1 := b64_char_roundtrip (W >>> 12 % 64) (by omega)
    have r2 := b64_char_roundtrip (W >>> 6 % 64) (by omega)
    have r3 := b64_char_roundtrip (W % 64) (by omega)
    have hw2 : (W >>> 18 % 64) <<< 18 ||| (W >>> 12 % 64) <<< 12 |||
        (W >>> 6 % 64) <<< 6 ||| W % 64 = W := by
      have e1 : (W >>> 18 % 64) <<< 18 ||| (W >>> 12 % 64) <<< 12 =
          (W >>> 18 % 64) <<< 18 + (W >>> 12 % 64) <<< 12 :=
        lor_eq_add_of_lt 18 (shiftLeft_dvd _ 18) (by omega)
      have e2 : (W >>> 18 % 64) <<< 18 + (W >>> 12 % 64) <<< 12 ||| (W >>> 6 % 64) <<< 6 =
          (W >>> 18 % 64) <<< 18 + (W >>> 12 % 64) <<< 12 + (W >>> 6 % 64) <<< 6 :=
        lor_eq_add_of_lt 12 (by omega) (by omega)
      have e3 : (W >>> 18 % 64) <<< 18 + (W >>> 12 % 64) <<< 12 + (W >>> 6 % 64) <<< 6 |||
          W % 64 =
          (W >>> 18 % 64) <<< 18 + (W >>> 12 % 64) <<< 12 + (W >>> 6 % 64) <<< 6 + W % 64 :=
        lor_eq_add_of_lt 6 (by omega) (by omega)
      rw [e1, e2, e3]
      omega
    simp [b64Decode, r0, r1, r2, r3, ih, hw2, and_255_eq_mod, hb0, hb1, hb2]

theorem b64Encode_length_12 (l : List Nat) (h : l.length = 12) :
    (b64Encode l).length = 16 := by
  match l, h with
  | [a0,a1,a2,a3,a4,a5,a6,a7,a8,a9,a10,a11], _ => simp [b64Encode]

/-- Across any sequence of `Next` calls, every emitted identifier carries the
worker bytes the state started with. -/
theorem nextN_getD_stable (nanos : List Nat) (f : FlakeState) (id : List Nat)
    (hid : id ∈ nextN f nanos) :
    id.getD 8 0 = f.buf.getD 8 0 ∧ id.getD 9 0 = f.buf.getD 9 0 ∧
      id.getD 10 0 = f.buf.getD 10 0 := by
  induction nanos generalizing f with
  | nil => simp [nextN] at hid
  | cons n rest ih =>
    simp only [nextN, List.mem_cons] at hid
    rcases hid with rfl | hid
    · exact tick_frame n f
    · obtain ⟨e8, e9, e10⟩ := ih ((Next n f).2) hid
      obtain ⟨f8, f9, f10⟩ := tick_frame n f
      exact ⟨e8.trans f8, e9.trans f9, e10.trans f10⟩

/-! ### Claim theorems -/

set_option maxRecDepth 40000 in
/-- C1: the emitted 12-byte identifiers are NOT strictly increasing.  Three
`Next` calls within the same microsecond (clock fixed at 1000000 ns), on a
generator seeded with counter 0, return with the second and third calls two
byte-identical identifiers (while the first differs, so the trace is not
degenerate): `tick` stores the pre-increment candidate as the last time-word
and ORs the old counter byte with the incremented one, so the third call
falls back to the counter value the second call already emitted. -/
theorem next_emits_duplicate :
    (Next 1000000 (Next 1000000 (Next 1000000 (mkFlake 0xaaaaaa 0)).2).2).1 =
      (Next 1000000 (Next 1000000 (mkFlake 0xaaaaaa 0)).2).1 ∧
    (Next 1000000 (Next 1000000 (mkFlake 0xaaaaaa 0)).2).1 ≠
      (Next 1000000 (mkFlake 0xaaaaaa 0)).1 := by decide

/-- C2: `Validate` reads the first eight bytes before checking the length:
the empty input crashes instead of getting a length error, and a 9-byte input
with version nibble 2 gets a version error, not a length error (a 9-byte
input whose nibble happens to be 1 does get the length error). -/
theorem validate_crashes_on_short_input :
    Validate [] = ValidateResult.crash ∧
    Validate [32, 0, 0, 0, 0, 0, 0, 0, 0] = ValidateResult.versionErr 2 ∧
    Validate [16, 0, 0, 0, 0, 0, 0, 0, 0] = ValidateResult.lengthErr 9 := by decide

set_option maxRecDepth 40000 in
/-- C3: in the not-strictly-greater branch, `tick` does increment the counter
(1 to 2 here) but the emitted low byte is 3 = 1 OR 2 — the old counter byte
is OR-ed, not replaced — and the stored last time-word is the pre-increment
candidate 1152921504607102977, not the emitted word 1152921504607102979.
The state is a generator whose previous call at the same microsecond
(clock 1000000 ns, counter 1) stored that candidate. -/
theorem tick_ors_counter_and_stores_candidate :
    (tick 1000000 { mkFlake 0xaaaaaa 1 with lts := 1152921504607102977 }).counter = 2 ∧
    (tick 1000000 { mkFlake 0xaaaaaa 1 with lts := 1152921504607102977 }).buf.getD 7 0 = 3 ∧
    (tick 1000000 { mkFlake 0xaaaaaa 1 with lts := 1152921504607102977 }).lts =
      1152921504607102977 ∧
    beUint64 (tick 1000000 { mkFlake 0xaaaaaa 1 with lts := 1152921504607102977 }).buf =
      1152921504607102979 := by decide

set_option maxRecDepth 40000 in
/-- C4: `tick` never masks the timestamp to 52 bits (`tsMask` is declared but
unused).  At a clock of 2^53 microseconds (nano = 2^53 * 1000, within the
int64 range of `UnixNano`), bits 4-55 of the identifier do hold the
microsecond count mod 2^52 (here 0), but the excess bit lands in the version
nibble, which becomes 3 instead of staying 1. -/
theorem tick_timestamp_unmasked :
    beUint64 (tick 9007199254740992000 (mkFlake 0xaaaaaa 0)).buf >>> 60 = 3 ∧
    (beUint64 (tick 9007199254740992000 (mkFlake 0xaaaaaa 0)).buf >>> 8) % 2 ^ 52 = 0 := by
  decide

set_option maxRecDepth 40000 in
/-- C5: an identifier produced by `Next` at a clock of 2^53 microseconds
fails `Validate` with a version error (nibble 3), because the unmasked
timestamp corrupts the version nibble. -/
theorem next_id_fails_validate_at_large_clock :
    Validate (Next 9007199254740992000 (mkFlake 0x123456 7)).1 =
      ValidateResult.versionErr 3 := by decide

/-- C6 (amended): on every reachable generator state, decoding the hex or
base64 text form reproduces exactly the 12 raw bytes of that generation
step, the hex form has 24 characters and the base64 form 16; `Validate`
succeeds on the decoded (= raw) bytes whenever the clock stays below 2^53
microseconds. -/
theorem roundtrip_decode_exact (wid b : Nat) (nanos : List Nat) (nano : Nat) :
    hexDecode ((NextHex nano (runTicks (mkFlake wid b) nanos)).1) =
      some ((Next nano (runTicks (mkFlake wid b) nanos)).1) ∧
    b64Decode ((NextB64 nano (runTicks (mkFlake wid b) nanos)).1) =
      some ((Next nano (runTicks (mkFlake wid b) nanos)).1) ∧
    ((NextHex nano (runTicks (mkFlake wid b) nanos)).1).length = 24 ∧
    ((NextB64 nano (runTicks (mkFlake wid b) nanos)).1).length = 16 ∧
    ((nano % 2 ^ 64) / 1000 < 2 ^ 53 →
      Validate ((Next nano (runTicks (mkFlake wid b) nanos)).1) = ValidateResult.ok) := by
  have hI : Inv (runTicks (mkFlake wid b) nanos) := inv_runTicks nanos (inv_mkFlake wid b)
  have hI2 : Inv (tick nano (runTicks (mkFlake wid b) nanos)) := inv_tick nano hI
  refine ⟨hexDecode_hexEncode _ hI2.1,
    b64Decode_b64Encode _ hI2.1 (by rw [tick_buf_length]),
    ?_, b64Encode_length_12 _ (tick_buf_length nano _),
    fun hts => validate_tick_ok nano hI hts⟩
  show (hexEncode (tick nano (runTicks (mkFlake wid b) nanos)).buf).length = 24
  rw [hexEncode_length, tick_buf_length]

set_option maxRecDepth 40000 in
/-- C6 witness: the amended claim at worker id 0xaaaaaa, seed 0, first call,
clock 1000000 ns. -/
theorem roundtrip_decode_exact_witness :
    hexDecode ((NextHex 1000000 (mkFlake 0xaaaaaa 0)).1) =
      some ((Next 1000000 (mkFlake 0xaaaaaa 0)).1) ∧
    b64Decode ((NextB64 1000000 (mkFlake 0xaaaaaa 0)).1) =
      some ((Next 1000000 (mkFlake 0xaaaaaa 0)).1) ∧
    Validate ((Next 1000000 (mkFlake 0xaaaaaa 0)).1) = ValidateResult.ok := by
  have h := roundtrip_decode_exact 0xaaaaaa 0 [] 1000000
  exact ⟨h.1, h.2.1, h.2.2.2.2 (by norm_num)⟩

set_option maxRecDepth 40000 in
/-- C6 counterexample: at a clock of 2^53 microseconds the decoded text forms
still reproduce the raw bytes exactly, but `Validate` rejects those bytes
with a version error — the claim as stated (Validate always succeeds on the
decoded bytes) is false. -/
theorem roundtrip_validate_cex :
    hexDecode ((NextHex 9007199254740992000 (mkFlake 0xaaaaaa 0)).1) =
      some ((Next 9007199254740992000 (mkFlake 0xaaaaaa 0)).1) ∧
    b64Decode ((NextB64 9007199254740992000 (mkFlake 0xaaaaaa 0)).1) =
      some ((Next 9007199254740992000 (mkFlake 0xaaaaaa 0)).1) ∧
    Validate ((Next 9007199254740992000 (mkFlake 0xaaaaaa 0)).1) =
      ValidateResult.versionErr 3 := by decide

/-- C7: every identifier a generator ever emits carries, in bytes 8-10, the
low 24 bits of the construction-time worker id in big-endian order; and one
generation step keeps bytes 8-10 of any state unchanged (it writes only
bytes 0-7 and byte 11). -/
theorem worker_identity_stable (wid b : Nat) (nanos : List Nat) (id : List Nat)
    (hid : id ∈ nextN (mkFlake wid b) nanos) (nano : Nat) (f : FlakeState) :
    [id.getD 8 0, id.getD 9 0, id.getD 10 0] =
      [(wid % 2 ^ 24) >>> 16, ((wid % 2 ^ 24) >>> 8) % 256, (wid % 2 ^ 24) % 256] ∧
    [(tick nano f).buf.getD 8 0, (tick nano f).buf.getD 9 0, (tick nano f).buf.getD 10 0] =
      [f.buf.getD 8 0, f.buf.getD 9 0, f.buf.getD 10 0] := by
  obtain ⟨e8, e9, e10⟩ := nextN_getD_stable nanos (mkFlake wid b) id hid
  obtain ⟨f8, f9, f10⟩ := tick_frame nano f
  refine ⟨?_, by rw [f8, f9, f10]⟩
  rw [e8, e9, e10]
  simp only [mkFlake, List.getD_cons_zero, List.getD_cons_succ, List.cons.injEq, and_true]
  refine ⟨by omega, by omega, by omega⟩

set_option maxRecDepth 40000 in
/-- C7 witness: the first identifier of a generator with worker id 0xaaaaaa
carries bytes aa aa aa, and a tick on an unrelated state keeps bytes 8-10. -/
theorem worker_identity_stable_witness :
    [(Next 5 (mkFlake 0xaaaaaa 0)).1.getD 8 0, (Next 5 (mkFlake 0xaaaaaa 0)).1.getD 9 0,
      (Next 5 (mkFlake 0xaaaaaa 0)).1.getD 10 0] =
      [(0xaaaaaa % 2 ^ 24) >>> 16, ((0xaaaaaa % 2 ^ 24) >>> 8) % 256,
        (0xaaaaaa % 2 ^ 24) % 256] ∧
    [(tick 7 (mkFlake 3 4)).buf.getD 8 0, (tick 7 (mkFlake 3 4)).buf.getD 9 0,
      (tick 7 (mkFlake 3 4)).buf.getD 10 0] =
      [(mkFlake 3 4).buf.getD 8 0, (mkFlake 3 4).buf.getD 9 0,
        (mkFlake 3 4).buf.getD 10 0] :=
  worker_identity_stable 0xaaaaaa 0 [5] (Next 5 (mkFlake 0xaaaaaa 0)).1
    (List.mem_cons_self _ _) 7 (mkFlake 3 4)

/-- C8 (amended): on candidates of at least 8 bytes — shorter ones crash
before any check runs — each failing check yields its own error constructor
with the observed values (version mismatch with the observed nibble, wrong
length with the observed length, checksum mismatch with computed and stored
byte), the first failing check in source order decides the result, and a
candidate passing all checks yields no error. -/
theorem validate_distinct_errors (id : List Nat) (h8 : 8 ≤ id.length)
    (hb : ∀ x ∈ id, x < 256) :
    (id.getD 0 0 >>> 4 ≠ 1 → Validate id = ValidateResult.versionErr (id.getD 0 0 >>> 4)) ∧
    (id.getD 0 0 >>> 4 = 1 → id.length ≠ 12 → Validate id = ValidateResult.lengthErr id.length) ∧
    (id.getD 0 0 >>> 4 = 1 → id.length = 12 → crc8 (id.take 11) ≠ id.getD 11 0 →
      Validate id = ValidateResult.crcErr (crc8 (id.take 11)) (id.getD 11 0)) ∧
    (id.getD 0 0 >>> 4 = 1 → id.length = 12 → crc8 (id.take 11) = id.getD 11 0 →
      Validate id = ValidateResult.ok) :=
  validate_cases id h8 hb

/-- C8 witness: an 8-byte candidate with version nibble 2 gets the version
error carrying the observed nibble. -/
theorem validate_distinct_errors_witness :
    Validate [32, 1, 2, 3, 4, 5, 6, 7] = ValidateResult.versionErr 2 := by
  have h := validate_distinct_errors [32, 1, 2, 3, 4, 5, 6, 7] (by norm_num) (by decide)
  exact h.1 (by decide)

/-- C8 counterexample: on a 3-byte candidate the length check fails, but
`Validate` crashes reading the first eight bytes instead of returning the
wrong-length error the claim promises for every failing check. -/
theorem validate_crash_cex : Validate [0, 0, 0] = ValidateResult.crash := by decide

/-- C9: construction fails exactly when the secure random read fails; on
success the counter is seeded with the byte that was read; and the three
generation operations are total — every call returns a 12-byte identifier,
a 24-character hex string, or a 16-character base64 string, with no error
path. -/
theorem new_seed_and_totality (wid b nano : Nat) (f : FlakeState) (hb : b < 256) :
    New wid none = none ∧
    New wid (some b) = some (mkFlake wid b) ∧
    (mkFlake wid b).counter = b ∧
    ((Next nano f).1).length = 12 ∧
    ((NextHex nano f).1).length = 24 ∧
    ((NextB64 nano f).1).length = 16 := by
  refine ⟨rfl, rfl, ?_, tick_buf_length nano f, ?_, ?_⟩
  · show b % 256 = b
    omega
  · show (hexEncode (tick nano f).buf).length = 24
    rw [hexEncode_length, tick_buf_length]
  · exact b64Encode_length_12 _ (tick_buf_length nano f)

/-- C9 witness: the claim at worker id 3, random byte 7, clock 11 ns. -/
theorem new_seed_and_totality_witness :
    New 3 none = none ∧ New 3 (some 7) = some (mkFlake 3 7) ∧ (mkFlake 3 7).counter = 7 ∧
    ((Next 11 (mkFlake 3 7)).1).length = 12 ∧ ((NextHex 11 (mkFlake 3 7)).1).length = 24 ∧
    ((NextB64 11 (mkFlake 3 7)).1).length = 16 :=
  new_seed_and_totality 3 7 11 (mkFlake 3 7) (by norm_num)

/-- C10: a 12-byte candidate is accepted exactly when its top four bits are
0001 and byte 11 is the CRC-8 of bytes 0-10 — timestamp, counter and worker
fields are unconstrained and no freshness check exists. -/
theorem validate_accepts_iff (id : List Nat) (hlen : id.length = 12)
    (hb : ∀ x ∈ id, x < 256) :
    Validate id = ValidateResult.ok ↔
      (id.getD 0 0 >>> 4 = 1 ∧ crc8 (id.take 11) = id.getD 11 0) := by
  have hc := validate_cases id (by omega) hb
  constructor
  · intro hok
    by_cases hv : id.getD 0 0 >>> 4 = 1
    · by_cases hcrc : crc8 (id.take 11) = id.getD 11 0
      · exact ⟨hv, hcrc⟩
      · rw [hc.2.2.1 hv hlen hcrc] at hok
        exact absurd hok (by simp)
    · rw [hc.1 hv] at hok
      exact absurd hok (by simp)
  · rintro ⟨hv, hcrc⟩
    exact hc.2.2.2 hv hlen hcrc

set_option maxRecDepth 40000 in
/-- C10 witness: an arbitrary 12-byte candidate (zero timestamp, zero
counter, zero worker id) with nibble 1 and the right checksum is accepted. -/
theorem validate_accepts_iff_witness :
    Validate [16, 0, 0, 0, 0, 0, 0, 0, 0, 0, 0, 247] = ValidateResult.ok :=
  (validate_accepts_iff [16, 0, 0, 0, 0, 0, 0, 0, 0, 0, 0, 247] (by norm_num)
    (by decide)).mpr (by decide)

end Flake
